import Mathlib

/-!
# Coin records of the UTXO set (`model/utxo/coin.go`) and the hash-rate handler

A shallow embedding of the `Coin` value object and of its persistence format, and of
the `getnetworkhashps` handler of `rpc/mining.go`, followed by the properties that
the ledger specification and the code state of them.

`coin.go` is embedded function by function.  The packages it calls into
(`txout`, `script`, `util`) and the standard library routine `binary.Size`
are not part of the embedded file; each definition that stands for one of them
says so in its doc comment.

Conventions.
* Machine integers are `Nat`/`Int`; a conversion or an operation that can wrap
  is written with an explicit `% 2 ^ w`.
* A byte sink (`io.Writer`) is the list of bytes written so far; a byte source
  (`io.Reader`) is the list of bytes not yet consumed.
* A Go method with a pointer receiver that mutates it returns the new value of
  the receiver next to its Go result.
* A Go function that can stop with a nil dereference or a division by zero returns
  an `Option`, `none` standing for that stop.
-/

namespace Copernicus

/-! ## Bytes, errors, machine integers -/

/-- One octet. -/
abbrev Byte := Fin 256

/-- The Go conversion `byte(n)`. -/
def toByte (n : Nat) : Byte := ⟨n % 256, Nat.mod_lt n (by decide)⟩

/-- The error values that the serialisation code can return. -/
inductive Err where
  /-- The value made by `errors.New("already spent")` in `Coin.Serialize`. -/
  | alreadySpent
  /-- The source ended before the record was complete. -/
  | truncated
  deriving DecidableEq

deriving instance DecidableEq for Except

/-- The bytes written so far to an `io.Writer`. -/
abbrev Sink := List Byte

/-- The bytes not yet read from an `io.Reader`. -/
abbrev Source := List Byte

/-- The Go conversion `uint64(v)` of a signed 64-bit amount. -/
def uint64 (v : Int) : Nat := (v % 18446744073709551616).toNat

/-- The Go conversion `int64(n)` of an unsigned 64-bit value. -/
def int64 (n : Nat) : Int :=
  if n % 18446744073709551616 < 9223372036854775808 then ((n % 18446744073709551616 : Nat) : Int)
  else ((n % 18446744073709551616 : Nat) : Int) - 18446744073709551616

/-! ## `util`: variable-length integers -/

/-- Modelled from the spec: `util.WriteVarLenInt` is not in the embedded file and
the spec only calls its output "a variable-length integer".  The model is the
base-128 code of the ledger format the record comes from: seven payload bits per
byte, most significant group first, the high bit set on every byte but the last,
and one subtracted from each shifted remainder so that every value has exactly one
code.  `varLenBytes fuel cont n` lists the bytes for `n`, `cont` telling whether the
last of them carries the continuation bit; ten bytes hold any 64-bit value. -/
def varLenBytes : Nat → Bool → Nat → List Byte
  | 0, _, _ => []
  | fuel + 1, cont, n =>
    if n ≤ 127 then [toByte (n % 128 + (if cont then 128 else 0))]
    else varLenBytes fuel true (n / 128 - 1) ++ [toByte (n % 128 + (if cont then 128 else 0))]

/-- Modelled from the spec: `util.WriteVarLenInt(w, n)`; see `varLenBytes`.  The sink
is an in-memory buffer, so the write itself does not fail. -/
def WriteVarLenInt (w : Sink) (n : Nat) : Sink × Option Err :=
  (w ++ varLenBytes 10 false n, none)

/-- Modelled from the spec: the loop of `util.ReadVarLenInt`, the inverse of
`varLenBytes`, with the accumulator held in an unsigned 64-bit word. -/
def readVarLenLoop : Source → Nat → Except Err (Nat × Source)
  | [], _ => .error .truncated
  | b :: rest, n =>
    if 128 ≤ b.val then
      readVarLenLoop rest (((n * 128 + b.val % 128) % 18446744073709551616 + 1) % 18446744073709551616)
    else .ok ((n * 128 + b.val % 128) % 18446744073709551616, rest)

/-- Modelled from the spec: `util.ReadVarLenInt(r)` returns the integer and leaves the
source after it, or fails when the source ends inside the integer. -/
def ReadVarLenInt (r : Source) : Except Err (Nat × Source) :=
  readVarLenLoop r 0

/-! ## `script` and `txout` -/

/-- Modelled from the spec: `script.Script`, "an opaque byte program".  Only the two
members that `coin.go` touches are kept: the raw bytes and the parsed form. -/
structure Script where
  data : List Byte
  ParsedOpCodes : List (Nat × List Byte)
  deriving DecidableEq

/-- Modelled from the spec: `script.NewScriptRaw(bytes)`.  How the byte program is
parsed is not specified; the parsed form is left empty here, `DeepCopy` overwrites
it and nothing else in `coin.go` reads it. -/
def NewScriptRaw (bytes : List Byte) : Script :=
  { data := bytes, ParsedOpCodes := [] }

/-- Modelled from the spec: `Script.GetData`. -/
def Script.GetData (s : Script) : List Byte := s.data

/-- Modelled from the spec: `txout.TxOut`, "value (integer amount) + locking script".
The script is held through a pointer: `NewEmptyCoin` passes `nil` for it. -/
structure TxOut where
  value : Int
  scriptPubKey : Option Script
  deriving DecidableEq

/-- Modelled from the spec: `txout.NewTxOut(value, script)`. -/
def NewTxOut (value : Int) (scriptPubKey : Option Script) : TxOut :=
  { value := value, scriptPubKey := scriptPubKey }

/-- Modelled from the spec: `TxOut.GetValue`. -/
def TxOut.GetValue (t : TxOut) : Int := t.value

/-- Modelled from the spec: `TxOut.GetScriptPubKey`, the stored pointer. -/
def TxOut.GetScriptPubKey (t : TxOut) : Option Script := t.scriptPubKey

/-- Modelled from the spec: the canonical "null output" sentinel, the amount `-1`
with the script cleared. -/
def nullTxOut : TxOut := { value := -1, scriptPubKey := none }

/-- Modelled from the spec: `TxOut.SetNull` clears value and script to the sentinel. -/
def TxOut.SetNull (_t : TxOut) : TxOut := nullTxOut

/-- Modelled from the spec: `TxOut.IsNull`, "true iff the output value/script have
been cleared to the canonical null output sentinel". -/
def TxOut.IsNull (t : TxOut) : Bool := t.value == -1 && t.scriptPubKey.isNone

/-- The script bytes of an output; an output without a script has none. -/
def TxOut.scriptBytes (t : TxOut) : List Byte :=
  match t.scriptPubKey with
  | none => []
  | some s => s.GetData

/-- Modelled from the spec: `TxOut.Serialize`, "variable-length amount, then
length-prefixed script bytes". -/
def TxOut.Serialize (t : TxOut) (w : Sink) : Sink × Option Err :=
  match WriteVarLenInt w (uint64 t.value) with
  | (w1, some e) => (w1, some e)
  | (w1, none) =>
    match WriteVarLenInt w1 (t.scriptBytes.length % 18446744073709551616) with
    | (w2, some e) => (w2, some e)
    | (w2, none) => (w2 ++ t.scriptBytes, none)

/-- Modelled from the spec: `TxOut.Unserialize`, the inverse of `TxOut.Serialize`.
Fields are assigned as they are read, so an error leaves the fields read before it
assigned.  The result is the receiver afterwards and either the error or the rest
of the source. -/
def TxOut.Unserialize (t : TxOut) (r : Source) : TxOut × Except Err Source :=
  match ReadVarLenInt r with
  | .error e => (t, .error e)
  | .ok (v, r1) =>
    let t1 : TxOut := { t with value := int64 v }
    match ReadVarLenInt r1 with
    | .error e => (t1, .error e)
    | .ok (len, r2) =>
      if r2.length < len then (t1, .error .truncated)
      else ({ t1 with scriptPubKey := some (NewScriptRaw (r2.take len)) }, .ok (r2.drop len))

/-! ## `utxo.Coin` -/

/-- The `Coin` struct. -/
structure Coin where
  txOut : TxOut
  height : Nat
  isCoinBase : Bool
  dirty : Bool
  fresh : Bool
  isMempoolCoin : Bool
  deriving DecidableEq

/-- A coin whose fields fit their Go types: `height` a `uint32`, the amount an
`int64`, the script length an `int`. -/
def Coin.WellFormed (c : Coin) : Prop :=
  c.height < 4294967296 ∧ -9223372036854775808 ≤ c.txOut.value ∧
    c.txOut.value < 9223372036854775808 ∧ c.txOut.scriptBytes.length < 9223372036854775808

instance (c : Coin) : Decidable c.WellFormed := by
  unfold Coin.WellFormed; infer_instance

/-- `Coin.GetHeight`. -/
def Coin.GetHeight (coin : Coin) : Nat := coin.height

/-- `Coin.IsCoinBase`. -/
def Coin.IsCoinBase (coin : Coin) : Bool := coin.isCoinBase

/-- `Coin.IsMempoolCoin`. -/
def Coin.IsMempoolCoin (coin : Coin) : Bool := coin.isMempoolCoin

/-- `Coin.IsSpendable`; the debugging print is not modelled. -/
def Coin.IsSpendable (coin : Coin) : Bool := coin.txOut.IsNull

/-- `Coin.IsSpent`; the debugging print is not modelled. -/
def Coin.IsSpent (coin : Coin) : Bool := coin.txOut.IsNull

/-- `Coin.Clear`. -/
def Coin.Clear (coin : Coin) : Coin :=
  { coin with txOut := coin.txOut.SetNull, height := 0, isCoinBase := false }

/-- `Coin.GetTxOut`. -/
def Coin.GetTxOut (coin : Coin) : TxOut := coin.txOut

/-- `Coin.GetAmount`. -/
def Coin.GetAmount (coin : Coin) : Int := coin.txOut.GetValue

/-- `Coin.DeepCopy`.  `outScript` is the stored script pointer; reading its
`ParsedOpCodes` member when the pointer is nil stops the program, which is the
result `none`. -/
def Coin.DeepCopy (coin : Coin) : Option Coin :=
  match coin.txOut.GetScriptPubKey with
  | none => none
  | some outScript =>
    let newOutScript := NewScriptRaw outScript.GetData
    let newOutScript := { newOutScript with ParsedOpCodes := outScript.ParsedOpCodes }
    let newOut := NewTxOut coin.txOut.GetValue (some newOutScript)
    some { txOut := newOut, height := coin.height, isCoinBase := coin.isCoinBase,
           dirty := coin.dirty, fresh := coin.fresh, isMempoolCoin := coin.isMempoolCoin }

/-- The Go types that occur in `Coin`, as package `reflect` classifies them. -/
inductive GoType where
  | bool
  | uint8
  | uint32
  | int64
  | ptr (elem : GoType)
  | slice (elem : GoType)
  | array (elem : GoType) (len : Nat)
  | struct (fields : List GoType)

mutual
/-- The standard library routine `sizeof` of `encoding/binary`: the encoded size of a
fixed-size type and `-1` for any other type. -/
def sizeof : GoType → Int
  | .bool => 1
  | .uint8 => 1
  | .uint32 => 4
  | .int64 => 8
  | .array elem len => if 0 ≤ sizeof elem then sizeof elem * len else -1
  | .struct fields => sizeofFields fields 0
  | .ptr _ => -1
  | .slice _ => -1
/-- The loop of `sizeof` over the fields of a struct. -/
def sizeofFields : List GoType → Int → Int
  | [], sum => sum
  | f :: fs, sum => if sizeof f < 0 then -1 else sizeofFields fs (sum + sizeof f)
end

/-- The standard library routine `dataSize` of `encoding/binary`, applied to a value
of type `t` that has `len` elements when `t` is a slice. -/
def dataSize (t : GoType) (len : Nat) : Int :=
  match t with
  | .slice elem => if 0 ≤ sizeof elem then sizeof elem * len else -1
  | t => sizeof t

/-- Modelled from the spec: the declaration of `script.Script`, the raw bytes and the
parsed operations (operation code and pushed data). -/
def scriptType : GoType :=
  .struct [.slice .uint8, .slice (.struct [.uint8, .slice .uint8])]

/-- Modelled from the spec: the declaration of `txout.TxOut`, a 64-bit amount and a
pointer to the script. -/
def txOutType : GoType := .struct [.int64, .ptr scriptType]

/-- The declaration of `Coin`, field by field. -/
def coinType : GoType :=
  .struct [txOutType, .uint32, .bool, .bool, .bool, .bool]

/-- `Coin.DynamicMemoryUsage`: `binary.Size(coin)` follows the receiver pointer and
sizes the struct it finds, from the type of the struct alone. -/
def Coin.DynamicMemoryUsage (_coin : Coin) : Int :=
  dataSize coinType 0

/-- `Coin.Serialize`: the new sink and the returned error (`none` is `nil`). -/
def Coin.Serialize (coin : Coin) (w : Sink) : Sink × Option Err :=
  if coin.IsSpent then (w, some .alreadySpent)
  else
    let bit : Nat := if coin.isCoinBase then 1 else 0
    let heightAndIsCoinBase := ((coin.height <<< 1) % 4294967296) ||| bit
    match WriteVarLenInt w heightAndIsCoinBase with
    | (w1, some err) => (w1, some err)
    | (w1, none) => coin.txOut.Serialize w1

/-- `Coin.Unserialize`: the receiver afterwards and either the returned error or,
on success, the rest of the source. -/
def Coin.Unserialize (coin : Coin) (r : Source) : Coin × Except Err Source :=
  match ReadVarLenInt r with
  | .error err => (coin, .error err)
  | .ok (hicb, r1) =>
    let heightAndIsCoinBase := hicb % 4294967296
    let coin1 : Coin := { coin with height := heightAndIsCoinBase >>> 1 }
    let coin2 : Coin :=
      if heightAndIsCoinBase &&& 1 = 1 then { coin1 with isCoinBase := true } else coin1
    let res := coin2.txOut.Unserialize r1
    ({ coin2 with txOut := res.1 }, res.2)

/-- `NewCoin`. -/
def NewCoin (out : TxOut) (height : Nat) (isCoinBase : Bool) : Coin :=
  { txOut := out, height := height, isCoinBase := isCoinBase,
    dirty := false, fresh := false, isMempoolCoin := false }

/-- `NewMempoolCoin`. -/
def NewMempoolCoin (out : TxOut) : Coin :=
  { txOut := out, height := 0, isCoinBase := false,
    dirty := false, fresh := false, isMempoolCoin := true }

/-- `NewEmptyCoin`. -/
def NewEmptyCoin : Coin :=
  { txOut := NewTxOut 0 none, height := 0, isCoinBase := false,
    dirty := false, fresh := false, isMempoolCoin := false }

/-! ## Stated properties and sample records -/

/-- The record is either populated or the spent sentinel throughout, for a given
reading `isNull` of "the output is null": a null output comes with height `0` and a
cleared coinbase flag. -/
def Coin.InvariantFor (isNull : TxOut → Bool) (c : Coin) : Prop :=
  isNull c.txOut = true → c.height = 0 ∧ c.isCoinBase = false

instance (isNull : TxOut → Bool) (c : Coin) : Decidable (c.InvariantFor isNull) := by
  unfold Coin.InvariantFor; infer_instance

/-- The invariant with "null" read as `TxOut.IsNull`. -/
def Coin.Invariant (c : Coin) : Prop :=
  c.InvariantFor TxOut.IsNull

instance (c : Coin) : Decidable c.Invariant := by
  unfold Coin.Invariant; infer_instance

/-- The fields that the round trip is asked to preserve: amount, script bytes,
height, coinbase flag and mempool flag. -/
def Coin.sameRecord (a b : Coin) : Prop :=
  a.txOut.value = b.txOut.value ∧ a.txOut.scriptBytes = b.txOut.scriptBytes ∧
    a.height = b.height ∧ a.isCoinBase = b.isCoinBase ∧ a.isMempoolCoin = b.isMempoolCoin

instance (a b : Coin) : Decidable (a.sameRecord b) := by
  unfold Coin.sameRecord; infer_instance

/-- The round trip for one coin: it serialises without error into an empty sink, and
a coin from `NewEmptyCoin` unserialises from exactly those bytes without error to
the same record. -/
def Coin.RoundTrips (c : Coin) : Prop :=
  (c.Serialize []).2 = none ∧
    (NewEmptyCoin.Unserialize (c.Serialize []).1).2 = .ok [] ∧
    (NewEmptyCoin.Unserialize (c.Serialize []).1).1.sameRecord c

instance (c : Coin) : Decidable c.RoundTrips := by
  unfold Coin.RoundTrips; infer_instance

/-- The bytes that `TxOut.Serialize` appends: amount, script length, script. -/
def TxOut.bytes (t : TxOut) : List Byte :=
  varLenBytes 10 false (uint64 t.value) ++
    (varLenBytes 10 false (t.scriptBytes.length % 18446744073709551616) ++ t.scriptBytes)

/-- The value of the local `heightAndIsCoinBase` of `Coin.Serialize`. -/
def Coin.heightAndIsCoinBase (c : Coin) : Nat :=
  ((c.height <<< 1) % 4294967296) ||| (if c.isCoinBase then 1 else 0)

/-- A pay-to-anyone output of 5000 units with a two-byte script. -/
def sampleOut : TxOut := NewTxOut 5000 (some (NewScriptRaw [toByte 0x51, toByte 0x52]))

/-- A confirmed coinbase coin at height 100. -/
def sampleCoin : Coin := NewCoin sampleOut 100 true

/-- An unconfirmed coin held by the mempool. -/
def sampleMempoolCoin : Coin := NewMempoolCoin sampleOut

/-- A confirmed coin whose height has the top bit of a `uint32` set. -/
def highCoin : Coin := NewCoin sampleOut 2147483648 false

/-- A spent coin: `sampleCoin` after `Clear`. -/
def spentCoin : Coin := sampleCoin.Clear

/-- The record of a coin at height 5 that is not a coinbase: its leading integer
is 10. -/
def evenRecord : Source := ((NewCoin sampleOut 5 false).Serialize []).1

/-- A record whose leading integer is 7 and whose output is the amount `-1` (the
code of `2 ^ 64 - 1`) with a script of length 0. -/
def sentinelAmountRecord : Source :=
  [toByte 7] ++ varLenBytes 10 false 18446744073709551615 ++ [toByte 0]

/-- A coin with the null output, a height and the coinbase flag. -/
def nullOutCoin : Coin := NewCoin nullTxOut 5 true

/-! ## `rpc`: the `getnetworkhashps` handler (`rpc/mining.go`) -/

/-- The members of `blockindex.BlockIndex` that the handler reads: the height, the
block time behind `GetBlockTime`, the accumulated chain work and the pointer to the
previous index.  The declaration itself is not part of the embedded files. -/
inductive BlockIndex where
  | mk (Height : Int) (Time : Nat) (ChainWork : Int) (Prev : Option BlockIndex)

/-- The field `Height`. -/
def BlockIndex.Height : BlockIndex → Int
  | .mk h _ _ _ => h

/-- The method `GetBlockTime`, a `uint32`. -/
def BlockIndex.GetBlockTime : BlockIndex → Nat
  | .mk _ t _ _ => t % 4294967296

/-- The field `ChainWork`, a `big.Int`. -/
def BlockIndex.ChainWork : BlockIndex → Int
  | .mk _ _ w _ => w

/-- The field `Prev`, nil at the genesis block. -/
def BlockIndex.Prev : BlockIndex → Option BlockIndex
  | .mk _ _ _ p => p

/-- What the handler asks of `chain.GlobalChain`: the results of `Tip()`, of
`Height()` and of `GetIndex(height)`.  The chain package is not part of the embedded
files, so the three are arbitrary. -/
structure Chain where
  Tip : Option BlockIndex
  Height : Int
  GetIndex : Int → Option BlockIndex

/-- The request `btcjson.GetNetworkHashPSCmd`, two optional integers. -/
structure GetNetworkHashPSCmd where
  Blocks : Option Int
  Height : Option Int

/-- The value a handler returns in its `interface{}` result: a Go `int`, or the
`*big.Int` of the hash rate. -/
inductive RpcValue where
  | int (n : Int)
  | bigInt (n : Int)
  deriving DecidableEq

/-- The `error` result of a handler. -/
abbrev RpcError := String

/-- The two statements of the handler that settle `lookup` once `index` is known:
a non-positive count is replaced by the position in the difficulty period plus one,
and the count is capped by the height of `index`.  `interval` is `int` of the
`DifficultyAdjustmentInterval()` of the active network parameters; the remainder by
a zero interval stops the program, which is the result `none`. -/
def lookupCount (interval lookup indexHeight : Int) : Option Int :=
  (if lookup ≤ 0 then
      (if interval = 0 then none else some (Int.tmod indexHeight interval + 1))
    else some lookup).map fun lookup =>
  if lookup > indexHeight then indexHeight else lookup

/-- The loop `for i := 0; i < lookup; i++ { b = b.Prev }`, by the number of rounds
left; following `Prev` of a nil index stops the program, which is the result
`none`. -/
def walkPrev : Nat → Option BlockIndex → Option (Option BlockIndex)
  | 0, b => some b
  | _ + 1, none => none
  | n + 1, some b => walkPrev n b.Prev

/-- `handleGetNetWorkhashPS`, for the chain `chain` and the difficulty adjustment
interval `interval` of the active network: the returned value and error, or `none`
when the program stops on a nil index or a division by zero. -/
def handleGetNetWorkhashPS (chain : Chain) (interval : Int) (c : GetNetworkHashPSCmd) :
    Option (RpcValue × Option RpcError) :=
  let lookup : Int := match c.Blocks with
    | some blocks => blocks
    | none => 120
  let height : Int := match c.Height with
    | some h => h
    | none => -1
  let index := if height > 0 ∨ height < chain.Height then chain.GetIndex height else chain.Tip
  match index with
  | none => some (.int 0, none)
  | some index =>
    if index.Height ≠ 0 then some (.int 0, none)
    else
      (lookupCount interval lookup index.Height).bind fun lookup =>
      let minTime := index.GetBlockTime
      let maxTime := minTime
      (walkPrev lookup.toNat (some index)).bind fun b =>
      if minTime = maxTime then some (.int 0, none)
      else
        match b with
        | none => none
        | some b =>
          let workDiff := index.ChainWork - b.ChainWork
          let timeDiff := int64 ((maxTime + 4294967296 - minTime) % 4294967296)
          if timeDiff = 0 then none
          else some (.bigInt (Int.ediv workDiff timeDiff), none)

/-- The genesis index of a sample chain. -/
def genesisIndex : BlockIndex := .mk 0 1231006505 4295032833 none

/-- A chain that holds the genesis block only. -/
def genesisChain : Chain :=
  { Tip := some genesisIndex, Height := 0,
    GetIndex := fun h => if h = 0 then some genesisIndex else none }

/-- A request for the rate at height 0 over the default number of blocks. -/
def genesisCmd : GetNetworkHashPSCmd := { Blocks := some 0, Height := some 0 }

/-! ## Variable-length integers: reading back what was written -/

theorem toByte_val (n : Nat) : (toByte n).val = n % 256 := rfl

theorem readVarLenLoop_last (x acc : Nat) (rest : Source) (hx : x < 128) :
    readVarLenLoop (toByte (x + 0) :: rest) acc =
      .ok ((acc * 128 + x) % 18446744073709551616, rest) := by
  have h1 : ¬ (128 ≤ (x + 0) % 256) := by omega
  have h2 : (x + 0) % 256 % 128 = x := by omega
  simp only [readVarLenLoop, toByte_val, h1, h2, if_false]

theorem readVarLenLoop_more (x acc : Nat) (rest : Source) (hx : x < 128) :
    readVarLenLoop (toByte (x + 128) :: rest) acc =
      readVarLenLoop rest
        (((acc * 128 + x) % 18446744073709551616 + 1) % 18446744073709551616) := by
  have h1 : 128 ≤ (x + 128) % 256 := by omega
  have h2 : (x + 128) % 256 % 128 = x := by omega
  simp only [readVarLenLoop, toByte_val, h1, h2, if_true]

/-- Reading back the code of `n`: after the code the loop either goes on (the last
byte carried the continuation bit) or returns `n`. -/
theorem readVarLenLoop_varLenBytes (fuel : Nat) :
    ∀ (cont : Bool) (n : Nat) (rest : Source), n < 128 ^ (fuel + 1) →
      n < 18446744073709551616 → (cont = true → n + 1 < 18446744073709551616) →
      readVarLenLoop (varLenBytes (fuel + 1) cont n ++ rest) 0 =
        if cont then readVarLenLoop rest (n + 1) else .ok (n, rest) := by
  induction fuel with
  | zero =>
    intro cont n rest hn h64 hc
    have h127 : n ≤ 127 := by omega
    have hx : n % 128 < 128 := by omega
    cases cont
    · simp only [varLenBytes, h127, if_true, List.singleton_append, Bool.false_eq_true, if_false]
      rw [readVarLenLoop_last _ _ _ hx]
      congr 2; omega
    · have h1 := hc rfl
      simp only [varLenBytes, h127, if_true, List.singleton_append]
      rw [readVarLenLoop_more _ _ _ hx]
      congr 1; omega
  | succ k ih =>
    intro cont n rest hn h64 hc
    have hx : n % 128 < 128 := by omega
    by_cases h127 : n ≤ 127
    · cases cont
      · simp only [varLenBytes, h127, if_true, List.singleton_append, Bool.false_eq_true, if_false]
        rw [readVarLenLoop_last _ _ _ hx]
        congr 2; omega
      · have h1 := hc rfl
        simp only [varLenBytes, h127, if_true, List.singleton_append]
        rw [readVarLenLoop_more _ _ _ hx]
        congr 1; omega
    · have hP : n < 128 * 128 ^ (k + 1) := by
        have : 128 ^ (k + 1 + 1) = 128 * 128 ^ (k + 1) := by ring
        omega
      generalize 128 ^ (k + 1) = P at hP ih
      have hm : n / 128 - 1 < P := by omega
      have hm64 : n / 128 - 1 < 18446744073709551616 := by omega
      have hm1 : n / 128 - 1 + 1 < 18446744073709551616 := by omega
      have step := ih true (n / 128 - 1)
        (toByte (n % 128 + (if cont then 128 else 0)) :: rest) hm hm64 (fun _ => hm1)
      rw [varLenBytes]
      simp only [h127, if_false, List.append_assoc, List.singleton_append]
      rw [step]
      simp only [if_true]
      cases cont
      · simp only [Bool.false_eq_true, if_false]
        rw [readVarLenLoop_last _ _ _ hx]
        congr 2; omega
      · have h1 := hc rfl
        simp only [if_true]
        rw [readVarLenLoop_more _ _ _ hx]
        congr 1; omega

/-- Every 64-bit value is read back from its ten-byte-bounded code, and the source
is left right after the code. -/
theorem ReadVarLenInt_varLenBytes (n : Nat) (rest : Source) (h : n < 18446744073709551616) :
    ReadVarLenInt (varLenBytes 10 false n ++ rest) = .ok (n, rest) := by
  have := readVarLenLoop_varLenBytes 9 false n rest (by norm_num; omega) h (by simp)
  simpa [ReadVarLenInt] using this

/-! ## Variable-length integers: a cut code does not read -/

theorem varLenBytes_cont (fuel : Nat) :
    ∀ (n : Nat) (b : Byte), b ∈ varLenBytes fuel true n → 128 ≤ b.val := by
  induction fuel with
  | zero => intro n b hb; simp [varLenBytes] at hb
  | succ k ih =>
    intro n b hb
    have hv : (toByte (n % 128 + 128)).val = n % 128 + 128 := by
      show (n % 128 + 128) % 256 = n % 128 + 128
      omega
    rw [varLenBytes] at hb
    by_cases h127 : n ≤ 127
    · simp only [h127, if_true, List.mem_singleton] at hb
      rw [hb, hv]; omega
    · simp only [h127, if_false, if_true, List.mem_append, List.mem_singleton] at hb
      rcases hb with hb | hb
      · exact ih _ _ hb
      · rw [hb, hv]; omega

theorem readVarLenLoop_cont (p : Source) :
    (∀ b ∈ p, 128 ≤ b.val) → ∀ acc, readVarLenLoop p acc = .error .truncated := by
  induction p with
  | nil => intro _ acc; rfl
  | cons b rest ih =>
    intro h acc
    have hb : 128 ≤ b.val := h b (List.mem_cons_self _ _)
    simp only [readVarLenLoop, hb, if_true]
    exact ih (fun x hx => h x (List.mem_cons_of_mem _ hx)) _

theorem varLenBytes_init (fuel : Nat) (n : Nat) :
    ∃ init last, varLenBytes (fuel + 1) false n = init ++ [last] ∧
      ∀ b ∈ init, 128 ≤ b.val := by
  rw [varLenBytes]
  by_cases h127 : n ≤ 127
  · exact ⟨[], toByte (n % 128), by simp [h127], by simp⟩
  · exact ⟨varLenBytes fuel true (n / 128 - 1), toByte (n % 128), by simp [h127],
      fun b hb => varLenBytes_cont fuel _ b hb⟩

theorem readVarLenLoop_cut (fuel n : Nat) (p : Source) (acc : Nat)
    (hp : p <+: varLenBytes (fuel + 1) false n) (hne : p ≠ varLenBytes (fuel + 1) false n) :
    readVarLenLoop p acc = .error .truncated := by
  obtain ⟨init, last, he, hall⟩ := varLenBytes_init fuel n
  rw [he] at hp hne
  rcases List.prefix_concat_iff.mp hp with h | h
  · exact absurd h hne
  · exact readVarLenLoop_cont p (fun b hb => hall b (h.subset hb)) acc

/-- A list that starts `a ++ b` is cut inside `a`, or is `a` followed by a start of
`b`. -/
theorem cut_append {α : Type} (a b p : List α) (hp : p <+: a ++ b) :
    (p <+: a ∧ p ≠ a) ∨ ∃ q, p = a ++ q ∧ q <+: b := by
  rcases List.prefix_or_prefix_of_prefix hp (List.prefix_append a b) with h | h
  · by_cases e : p = a
    · right; exact ⟨[], by simp [e], List.nil_prefix⟩
    · left; exact ⟨h, e⟩
  · obtain ⟨q, hq⟩ := h
    right
    refine ⟨q, hq.symm, ?_⟩
    rw [← hq] at hp
    exact (List.prefix_append_right_inj a).mp hp

/-- Reading an integer from a cut record: the read fails, or the cut lies after the
integer. -/
theorem ReadVarLenInt_cut (n : Nat) (b p : Source) (h : n < 18446744073709551616)
    (hp : p <+: varLenBytes 10 false n ++ b) (hne : p ≠ varLenBytes 10 false n ++ b) :
    ReadVarLenInt p = .error .truncated ∨
      ∃ q, ReadVarLenInt p = .ok (n, q) ∧ q <+: b ∧ q ≠ b := by
  rcases cut_append _ _ _ hp with ⟨h1, h2⟩ | ⟨q, hq, hqb⟩
  · left; exact readVarLenLoop_cut 9 n p 0 h1 h2
  · right
    refine ⟨q, ?_, hqb, ?_⟩
    · rw [hq]; exact ReadVarLenInt_varLenBytes n q h
    · intro e; apply hne; rw [hq, e]

/-! ## Outputs -/

theorem uint64_lt (v : Int) : uint64 v < 18446744073709551616 := by
  unfold uint64; omega

theorem int64_uint64 (v : Int) (h1 : -9223372036854775808 ≤ v) (h2 : v < 9223372036854775808) :
    int64 (uint64 v) = v := by
  unfold int64 uint64; omega

theorem TxOut.isNull_iff (t : TxOut) : t.IsNull = true ↔ t = nullTxOut := by
  cases t with
  | mk v s => cases s <;> simp [TxOut.IsNull, nullTxOut]

theorem TxOut.Serialize_bytes (t : TxOut) (w : Sink) : t.Serialize w = (w ++ t.bytes, none) := by
  simp [TxOut.Serialize, WriteVarLenInt, TxOut.bytes]

theorem TxOut.Unserialize_of_bytes (t u : TxOut) (rest : Source)
    (hlen : u.scriptBytes.length < 18446744073709551616) :
    t.Unserialize (u.bytes ++ rest) =
      ({ value := int64 (uint64 u.value), scriptPubKey := some (NewScriptRaw u.scriptBytes) },
        .ok rest) := by
  unfold TxOut.Unserialize TxOut.bytes
  rw [List.append_assoc, ReadVarLenInt_varLenBytes _ _ (uint64_lt _)]
  simp only
  rw [List.append_assoc, ReadVarLenInt_varLenBytes _ _ (Nat.mod_lt _ (by decide))]
  simp only
  rw [Nat.mod_eq_of_lt hlen]
  simp

theorem TxOut.Unserialize_cut (t u : TxOut) (p : Source)
    (hlen : u.scriptBytes.length < 18446744073709551616)
    (hp : p <+: u.bytes) (hne : p ≠ u.bytes) :
    (t.Unserialize p).2 = .error .truncated := by
  unfold TxOut.Unserialize
  unfold TxOut.bytes at hp hne
  rcases ReadVarLenInt_cut _ _ _ (uint64_lt _) hp hne with h | ⟨q, hq, hqp, hqne⟩
  · rw [h]
  · rw [hq]
    simp only
    rcases ReadVarLenInt_cut _ _ _ (Nat.mod_lt _ (by decide)) hqp hqne with
      h | ⟨q2, hq2, hqp2, hqne2⟩
    · rw [h]
    · rw [hq2]
      simp only
      rw [Nat.mod_eq_of_lt hlen]
      have hl : q2.length < u.scriptBytes.length := by
        rcases Nat.lt_or_ge q2.length u.scriptBytes.length with h | h
        · exact h
        · exact absurd (hqp2.eq_of_length_le h) hqne2
      simp [hl]

/-- A successful `TxOut.Unserialize` leaves a script in place. -/
theorem TxOut.Unserialize_ok_script (t : TxOut) (r rest : Source)
    (h : (t.Unserialize r).2 = .ok rest) : (t.Unserialize r).1.scriptPubKey.isSome = true := by
  unfold TxOut.Unserialize at h ⊢
  cases h1 : ReadVarLenInt r with
  | error e => simp [h1] at h
  | ok vr =>
    obtain ⟨v, r1⟩ := vr
    simp only [h1] at h ⊢
    cases h2 : ReadVarLenInt r1 with
    | error e => simp [h2] at h
    | ok lr =>
      obtain ⟨len, r2⟩ := lr
      simp only [h2] at h ⊢
      by_cases hl : r2.length < len
      · simp [hl] at h
      · simp [hl]

/-! ## Coins: the packed field and the record -/

/-- The packed field is twice the height reduced to 31 bits, plus the coinbase bit. -/
theorem Coin.heightAndIsCoinBase_eq (c : Coin) :
    c.heightAndIsCoinBase = 2 * (c.height % 2147483648) + (if c.isCoinBase then 1 else 0) := by
  unfold Coin.heightAndIsCoinBase
  have h1 : (c.height <<< 1) % 4294967296 = 2 ^ 1 * (c.height % 2147483648) := by
    rw [Nat.shiftLeft_eq]; omega
  rw [h1]
  have hb : (if c.isCoinBase then 1 else 0 : Nat) < 2 ^ 1 := by
    cases c.isCoinBase <;> simp
  rw [← Nat.mul_add_lt_is_or hb]

theorem Coin.heightAndIsCoinBase_lt (c : Coin) : c.heightAndIsCoinBase < 4294967296 := by
  rw [Coin.heightAndIsCoinBase_eq]
  cases c.isCoinBase <;> (simp; omega)

/-- The record of an unspent coin: the packed field, then the output. -/
theorem Coin.Serialize_eq (c : Coin) (w : Sink) (h : c.IsSpent = false) :
    c.Serialize w = (w ++ (varLenBytes 10 false c.heightAndIsCoinBase ++ c.txOut.bytes), none) := by
  simp [Coin.Serialize, h, WriteVarLenInt, TxOut.Serialize_bytes, Coin.heightAndIsCoinBase]

/-- The record written into an empty sink. -/
theorem Coin.Serialize_nil (c : Coin) (h : c.IsSpent = false) :
    c.Serialize [] = (varLenBytes 10 false c.heightAndIsCoinBase ++ c.txOut.bytes, none) := by
  rw [Coin.Serialize_eq c [] h, List.nil_append]

theorem Coin.Serialize_nil_fst (c : Coin) (h : c.IsSpent = false) :
    (c.Serialize []).1 = varLenBytes 10 false c.heightAndIsCoinBase ++ c.txOut.bytes := by
  rw [Coin.Serialize_nil c h]

/-- What `Unserialize` makes of a written record, for any receiver: the height comes
back reduced to 31 bits, and the coinbase flag is set when the record has it set
and left as it was when the record has it clear. -/
theorem Coin.Unserialize_bytes (recv c : Coin) (rest : Source) (hs : c.IsSpent = false)
    (hlen : c.txOut.scriptBytes.length < 18446744073709551616) :
    recv.Unserialize ((c.Serialize []).1 ++ rest) =
      ({ recv with
          txOut := { value := int64 (uint64 c.txOut.value),
                     scriptPubKey := some (NewScriptRaw c.txOut.scriptBytes) },
          height := c.height % 2147483648,
          isCoinBase := c.isCoinBase || recv.isCoinBase }, .ok rest) := by
  rw [Coin.Serialize_nil_fst c hs]
  unfold Coin.Unserialize
  have h64 : c.heightAndIsCoinBase < 18446744073709551616 :=
    Nat.lt_trans (Coin.heightAndIsCoinBase_lt c) (by decide)
  rw [List.append_assoc, ReadVarLenInt_varLenBytes _ _ h64]
  simp only
  have hdiv : c.heightAndIsCoinBase / 2 ^ 1 = c.height % 2147483648 := by
    rw [Coin.heightAndIsCoinBase_eq]; split <;> omega
  have hmod : (c.heightAndIsCoinBase % 2 = 1) ↔ c.isCoinBase = true := by
    rw [Coin.heightAndIsCoinBase_eq]
    cases c.isCoinBase
    · simp only [Bool.false_eq_true, if_false, iff_false]; omega
    · simp only [if_true, iff_true]; omega
  rw [Nat.mod_eq_of_lt (Coin.heightAndIsCoinBase_lt c), Nat.and_one_is_mod,
    Nat.shiftRight_eq_div_pow]
  simp only [TxOut.Unserialize_of_bytes _ _ _ hlen, hdiv, hmod]
  cases c.isCoinBase <;> simp

/-- `DeepCopy` of a coin that has a script returns a coin with the same fields. -/
theorem Coin.DeepCopy_some (c : Coin) (s : Script) (h : c.txOut.scriptPubKey = some s) :
    c.DeepCopy = some c := by
  obtain ⟨⟨v, sp⟩, ht, cb, d, f, m⟩ := c
  simp only at h
  subst h
  simp [Coin.DeepCopy, TxOut.GetScriptPubKey, NewScriptRaw, Script.GetData, NewTxOut,
    TxOut.GetValue]

/-- A null output, as `TxOut.IsNull` reads it, has the sentinel amount. -/
theorem TxOut.IsNull_value (t : TxOut) (h : t.IsNull = true) : t.value = -1 := by
  simp only [TxOut.IsNull, Bool.and_eq_true, beq_iff_eq] at h
  exact h.1

/-- When the leading integer cannot be read, `Unserialize` returns that error and
leaves the receiver as it was. -/
theorem Coin.Unserialize_first_read_error (c : Coin) (r : Source) (e : Err)
    (h : ReadVarLenInt r = .error e) : c.Unserialize r = (c, .error e) := by
  unfold Coin.Unserialize
  rw [h]

/-- A record can hold the sentinel amount: `sentinelAmountRecord` unserialises without
error to the amount `-1`, no script bytes, height 3 and the coinbase flag.  With "null"
read from the amount alone, or from the amount and the script bytes, that coin has a
null output next to a non-zero height. -/
theorem Unserialize_sentinel_amount :
    (NewEmptyCoin.Unserialize sentinelAmountRecord).2 = .ok [] ∧
      (NewEmptyCoin.Unserialize sentinelAmountRecord).1.txOut.value = -1 ∧
      (NewEmptyCoin.Unserialize sentinelAmountRecord).1.txOut.scriptBytes = [] ∧
      (NewEmptyCoin.Unserialize sentinelAmountRecord).1.height = 3 ∧
      (NewEmptyCoin.Unserialize sentinelAmountRecord).1.isCoinBase = true ∧
      ¬ (NewEmptyCoin.Unserialize sentinelAmountRecord).1.InvariantFor
          (fun t => t.value == -1) ∧
      ¬ (NewEmptyCoin.Unserialize sentinelAmountRecord).1.InvariantFor
          (fun t => t.value == -1 && t.scriptBytes.isEmpty) := by
  decide

/-! ## The claims -/

/-- C1, as stated, fails: the unspent mempool coin `sampleMempoolCoin` serialises and
unserialises without error, but the coin read back has its `isMempoolCoin` flag
false, so it is not the same record. -/
theorem roundTrip_fails_mempoolCoin :
    sampleMempoolCoin.IsSpent = false ∧ sampleMempoolCoin.WellFormed ∧
      sampleMempoolCoin.isMempoolCoin = true ∧
      (sampleMempoolCoin.Serialize []).2 = none ∧
      (NewEmptyCoin.Unserialize (sampleMempoolCoin.Serialize []).1).2 = .ok [] ∧
      (NewEmptyCoin.Unserialize (sampleMempoolCoin.Serialize []).1).1.isMempoolCoin = false ∧
      ¬ sampleMempoolCoin.RoundTrips := by
  decide

/-- C1, amended: for every unspent coin whose fields fit their Go types and whose
height is below `2 ^ 31`, `Serialize` succeeds, and `Unserialize` of exactly the
bytes written, into a coin from `NewEmptyCoin`, succeeds, consumes them all and
yields the same amount, script bytes, height and coinbase flag, with the mempool
flag false. -/
theorem Serialize_Unserialize_roundTrip (c : Coin) (hs : c.IsSpent = false)
    (hw : c.WellFormed) (hh : c.height < 2147483648) :
    (c.Serialize []).2 = none ∧
      (NewEmptyCoin.Unserialize (c.Serialize []).1).2 = .ok [] ∧
      (NewEmptyCoin.Unserialize (c.Serialize []).1).1.sameRecord
        { c with isMempoolCoin := false } := by
  obtain ⟨_, hv1, hv2, hlen⟩ := hw
  have hlen64 : c.txOut.scriptBytes.length < 18446744073709551616 := by omega
  have hu := Coin.Unserialize_bytes NewEmptyCoin c [] hs hlen64
  rw [List.append_nil] at hu
  refine ⟨?_, ?_, ?_⟩
  · rw [Coin.Serialize_nil c hs]
  · rw [hu]
  · rw [hu]
    simp only [Coin.sameRecord, int64_uint64 _ hv1 hv2, Nat.mod_eq_of_lt hh]
    refine ⟨trivial, ?_, trivial, ?_, rfl⟩
    · simp [TxOut.scriptBytes, NewScriptRaw, Script.GetData]
    · simp [NewEmptyCoin]

/-- C1, amended, at `sampleCoin`. -/
theorem Serialize_Unserialize_roundTrip_witness :
    sampleCoin.IsSpent = false ∧ sampleCoin.WellFormed ∧ sampleCoin.height < 2147483648 ∧
      (sampleCoin.Serialize []).2 = none ∧
      (NewEmptyCoin.Unserialize (sampleCoin.Serialize []).1).2 = .ok [] ∧
      (NewEmptyCoin.Unserialize (sampleCoin.Serialize []).1).1.sameRecord
        { sampleCoin with isMempoolCoin := false } :=
  ⟨by decide, by decide, by decide,
    Serialize_Unserialize_roundTrip sampleCoin (by decide) (by decide) (by decide)⟩

/-- C2: `Serialize` of a spent coin returns the already-spent error and leaves the
sink as it was; and whenever `Serialize` returns the already-spent error the coin is
spent. -/
theorem Serialize_spent (c : Coin) (w : Sink) :
    (c.IsSpent = true → c.Serialize w = (w, some Err.alreadySpent)) ∧
      ((c.Serialize w).2 = some Err.alreadySpent → c.IsSpent = true) := by
  constructor
  · intro h
    simp [Coin.Serialize, h]
  · intro h
    cases hs : c.IsSpent with
    | true => rfl
    | false =>
      rw [Coin.Serialize_eq c w hs] at h
      simp at h

/-- C2 at `spentCoin` and an empty sink. -/
theorem Serialize_spent_witness :
    spentCoin.IsSpent = true ∧ spentCoin.Serialize [] = ([], some Err.alreadySpent) :=
  ⟨by decide, (Serialize_spent spentCoin []).1 (by decide)⟩

/-- C3 fails at `highCoin`, an unspent coin of height `2 ^ 31`: the first field
written is the code of `0`, which is also the whole record of the coin of height 0,
so the top bit of the height is lost. -/
theorem Serialize_height_top_bit_lost :
    highCoin.IsSpent = false ∧ highCoin.WellFormed ∧ highCoin.height = 2147483648 ∧
      highCoin.Serialize [] = (varLenBytes 10 false 0 ++ sampleOut.bytes, none) ∧
      ReadVarLenInt (highCoin.Serialize []).1 = .ok (0, sampleOut.bytes) ∧
      0 >>> 1 ≠ highCoin.height ∧
      highCoin.Serialize [] = (NewCoin sampleOut 0 false).Serialize [] := by
  decide

/-- C4 fails at the receiver `sampleCoin`, whose coinbase flag is set, and the
source `evenRecord`, whose leading integer is 10: `Unserialize` succeeds and sets
the height to 5, and the flag is still set although the low bit of 10 is 0. -/
theorem Unserialize_keeps_coinbase_flag :
    sampleCoin.isCoinBase = true ∧
      ReadVarLenInt evenRecord = .ok (10, sampleOut.bytes) ∧
      (sampleCoin.Unserialize evenRecord).2 = .ok [] ∧
      (sampleCoin.Unserialize evenRecord).1.height = 10 >>> 1 ∧
      10 &&& 1 = 0 ∧
      (sampleCoin.Unserialize evenRecord).1.isCoinBase = true := by
  decide

/-- C5: for every unspent coin whose fields fit their Go types, every receiver and
every source that is a start of the coin's record but not all of it, `Unserialize`
returns the truncated-input error. -/
theorem Unserialize_truncated (recv c : Coin) (p : Source) (hs : c.IsSpent = false)
    (hw : c.WellFormed) (hp : p <+: (c.Serialize []).1) (hne : p ≠ (c.Serialize []).1) :
    (recv.Unserialize p).2 = .error .truncated := by
  obtain ⟨_, _, _, hlen⟩ := hw
  have hlen64 : c.txOut.scriptBytes.length < 18446744073709551616 := by omega
  rw [Coin.Serialize_nil_fst c hs] at hp hne
  unfold Coin.Unserialize
  have h64 : c.heightAndIsCoinBase < 18446744073709551616 :=
    Nat.lt_trans (Coin.heightAndIsCoinBase_lt c) (by decide)
  rcases ReadVarLenInt_cut _ _ _ h64 hp hne with h | ⟨q, hq, hqp, hqne⟩
  · rw [h]
  · rw [hq]
    simp only
    exact TxOut.Unserialize_cut _ _ _ hlen64 hqp hqne

/-- C5 at the empty source, for the record of `sampleCoin`. -/
theorem Unserialize_truncated_witness :
    sampleCoin.IsSpent = false ∧ sampleCoin.WellFormed ∧
      ([] : Source) <+: (sampleCoin.Serialize []).1 ∧ [] ≠ (sampleCoin.Serialize []).1 ∧
      (NewEmptyCoin.Unserialize []).2 = .error .truncated :=
  ⟨by decide, by decide, List.nil_prefix, by decide,
    Unserialize_truncated NewEmptyCoin sampleCoin [] (by decide) (by decide)
      List.nil_prefix (by decide)⟩

/-- C6: after `Clear` the output is the null sentinel, the coin is spent, the height
is 0 and the coinbase flag is false; a second `Clear` changes nothing. -/
theorem Clear_spec (c : Coin) :
    c.Clear.txOut = nullTxOut ∧ c.Clear.IsSpent = true ∧ c.Clear.height = 0 ∧
      c.Clear.isCoinBase = false ∧ c.Clear.Clear = c.Clear :=
  ⟨rfl, rfl, rfl, rfl, rfl⟩

/-- C7 fails at the coin from `NewEmptyCoin`, which is unspent and has no script:
`DeepCopy` stops on the nil script and returns no coin; so it does on a coin left by
`Clear`. -/
theorem DeepCopy_nil_script :
    NewEmptyCoin.IsSpent = false ∧ NewEmptyCoin.DeepCopy = none ∧
      spentCoin.IsSpent = true ∧ spentCoin.DeepCopy = none := by
  decide

/-- C8, as stated, fails: `NewCoin` given the null output, height 5 and the coinbase
flag returns a coin with a null output, a non-zero height and the flag set; and
`Unserialize` of a source that ends after the packed field, started from a spent
coin, which satisfies the invariant, returns an error and leaves a null output with
height 3 and the flag set. -/
theorem Invariant_fails :
    nullOutCoin.txOut.IsNull = true ∧ nullOutCoin.height = 5 ∧
      nullOutCoin.isCoinBase = true ∧ ¬ nullOutCoin.Invariant ∧
      spentCoin.Invariant ∧
      (spentCoin.Unserialize [toByte 7]).2 = .error .truncated ∧
      ¬ (spentCoin.Unserialize [toByte 7]).1.Invariant := by
  decide

/-- C8, amended: for every reading of "null output" under which a null output has the
sentinel amount `-1`, as it has for `TxOut.IsNull`: the coin from `NewEmptyCoin`
and every coin from `NewMempoolCoin` satisfy the invariant; a coin from `NewCoin`
satisfies it exactly when its output argument is not null or its height is 0 and
its coinbase flag false; and, started from a coin that satisfies the invariant, the
coin left by `Clear`, every coin that `DeepCopy` returns, the coin left by an
`Unserialize` whose leading integer cannot be read, which is the receiver unchanged,
and the coin left by any `Unserialize`, successful or not, that leaves an amount other
than `-1` in the output satisfy it. -/
theorem Invariant_holds (isNull : TxOut → Bool) (out : TxOut) (height : Nat)
    (isCoinBase : Bool) (c : Coin) (r : Source)
    (hnull : ∀ t, isNull t = true → t.value = -1) (hc : c.InvariantFor isNull) :
    NewEmptyCoin.InvariantFor isNull ∧ (NewMempoolCoin out).InvariantFor isNull ∧
      ((NewCoin out height isCoinBase).InvariantFor isNull ↔
        (isNull out = false ∨ (height = 0 ∧ isCoinBase = false))) ∧
      c.Clear.InvariantFor isNull ∧
      (∀ d, c.DeepCopy = some d → d.InvariantFor isNull) ∧
      (∀ e, ReadVarLenInt r = .error e →
        (c.Unserialize r).1 = c ∧ (c.Unserialize r).1.InvariantFor isNull) ∧
      ((c.Unserialize r).1.txOut.value ≠ -1 → (c.Unserialize r).1.InvariantFor isNull) := by
  refine ⟨fun _ => ⟨rfl, rfl⟩, fun _ => ⟨rfl, rfl⟩, ?_, fun _ => ⟨rfl, rfl⟩, ?_, ?_, ?_⟩
  · constructor
    · intro h
      cases hn : isNull out with
      | false => exact Or.inl rfl
      | true => exact Or.inr (h hn)
    · rintro (h | ⟨h1, h2⟩) hn
      · have hn2 : isNull out = true := hn
        rw [h] at hn2
        exact absurd hn2 (by decide)
      · exact ⟨h1, h2⟩
  · intro d hd
    cases hsp : c.txOut.scriptPubKey with
    | none => simp [Coin.DeepCopy, TxOut.GetScriptPubKey, hsp] at hd
    | some s =>
      rw [Coin.DeepCopy_some c s hsp] at hd
      cases hd
      exact hc
  · intro e he
    rw [Coin.Unserialize_first_read_error c r e he]
    exact ⟨rfl, hc⟩
  · intro hv hn
    exact absurd (hnull _ hn) hv

/-- C8, amended, with "null" read as `TxOut.IsNull`, at `sampleCoin`: the empty source
for the read that fails and `evenRecord` for the read that leaves the amount 5000. -/
theorem Invariant_holds_witness :
    (∀ t, TxOut.IsNull t = true → t.value = -1) ∧ sampleCoin.InvariantFor TxOut.IsNull ∧
      (NewCoin sampleOut 100 true).InvariantFor TxOut.IsNull ∧
      sampleCoin.Clear.InvariantFor TxOut.IsNull ∧
      sampleCoin.DeepCopy = some sampleCoin ∧
      ReadVarLenInt [] = .error .truncated ∧
      (sampleCoin.Unserialize []).1.InvariantFor TxOut.IsNull ∧
      (sampleCoin.Unserialize evenRecord).1.txOut.value ≠ -1 ∧
      (sampleCoin.Unserialize evenRecord).1.InvariantFor TxOut.IsNull :=
  ⟨TxOut.IsNull_value, by decide,
    (Invariant_holds TxOut.IsNull sampleOut 100 true sampleCoin [] TxOut.IsNull_value
      (by decide)).2.2.1.mpr (Or.inl (by decide)),
    (Invariant_holds TxOut.IsNull sampleOut 100 true sampleCoin [] TxOut.IsNull_value
      (by decide)).2.2.2.1,
    by decide, by decide,
    ((Invariant_holds TxOut.IsNull sampleOut 100 true sampleCoin [] TxOut.IsNull_value
      (by decide)).2.2.2.2.2.1 Err.truncated (by decide)).2,
    by decide,
    (Invariant_holds TxOut.IsNull sampleOut 100 true sampleCoin evenRecord TxOut.IsNull_value
      (by decide)).2.2.2.2.2.2 (by decide)⟩

/-- C9 fails at every coin: `DynamicMemoryUsage` returns `-1`, the answer of
`binary.Size` for a struct that holds a pointer, so it is negative and the same for
two coins whatever their scripts. -/
theorem DynamicMemoryUsage_constant (c d : Coin) :
    c.DynamicMemoryUsage = -1 ∧ c.DynamicMemoryUsage < 0 ∧
      c.DynamicMemoryUsage = d.DynamicMemoryUsage := by
  unfold Coin.DynamicMemoryUsage
  decide

/-- C10: `IsSpendable` returns what `IsSpent` returns; each is true exactly when
the output is the null sentinel, and an unspent coin is not reported spendable. -/
theorem IsSpendable_eq_IsSpent (c : Coin) :
    c.IsSpendable = c.IsSpent ∧ (c.IsSpent = true ↔ c.txOut = nullTxOut) ∧
      (c.IsSpendable = true ↔ c.txOut = nullTxOut) ∧
      (c.IsSpendable = true ↔ c.IsSpent = true) ∧
      (c.IsSpent = false → c.IsSpendable = false) :=
  ⟨rfl, TxOut.isNull_iff c.txOut, TxOut.isNull_iff c.txOut, Iff.rfl, fun h => h⟩

/-- With a non-zero interval and an index of height 0 the count is always 0. -/
theorem lookupCount_zero (interval lookup : Int) (hi : interval ≠ 0) :
    lookupCount interval lookup 0 = some 0 := by
  unfold lookupCount
  by_cases h : lookup ≤ 0
  · simp [h, hi, Int.zero_tmod]
  · simp only [h, if_false, Option.map_some']
    have : lookup > 0 := by omega
    simp [this]

/-- The remainder by a zero interval stops the handler: the genesis-only chain, a
request for height 0 with a block count of 0. -/
theorem handleGetNetWorkhashPS_interval_zero :
    handleGetNetWorkhashPS genesisChain 0 genesisCmd = none := by
  decide

/-- C11: for every request and every chain state, with the non-zero difficulty
adjustment interval of a network, `handleGetNetWorkhashPS` returns the Go integer 0
and no error, without stopping; on the path past the height test the lookup count
is 0, so the loop over `Prev` does no round. -/
theorem handleGetNetWorkhashPS_zero (chain : Chain) (interval : Int)
    (c : GetNetworkHashPSCmd) (hi : interval ≠ 0) :
    handleGetNetWorkhashPS chain interval c = some (.int 0, none) ∧
      (∀ lookup, lookupCount interval lookup 0 = some 0) := by
  refine ⟨?_, fun lookup => lookupCount_zero interval lookup hi⟩
  unfold handleGetNetWorkhashPS
  simp only
  split
  · rfl
  · next index _ =>
    by_cases hz : index.Height = 0
    · simp [hz, lookupCount_zero _ _ hi, walkPrev]
    · simp [hz]

/-- C11 at the genesis-only chain, a request for height 0 with a block count of 0,
and the interval 2016. -/
theorem handleGetNetWorkhashPS_zero_witness :
    (2016 : Int) ≠ 0 ∧
      handleGetNetWorkhashPS genesisChain 2016 genesisCmd = some (.int 0, none) :=
  ⟨by decide, (handleGetNetWorkhashPS_zero genesisChain 2016 genesisCmd (by decide)).1⟩

end Copernicus
